import Mathlib

/-!
Verification development for the Go renderer core of a Codama IDL client
generator.  The definitions below are a shallow embedding of the four core
components (dependency resolver `ImportMap`, type manifest engine, value
renderer, and the instruction name-collision logic of the render-map
assembly), translated from the TypeScript sources
`src/ImportMap.ts`, `src/getTypeManifestVisitor.ts`,
`src/renderValueNodeVisitor.ts` and `src/getRenderMapVisitor.ts`.

JavaScript data structures are modelled as follows: a `Set<string>` is an
insertion-ordered duplicate-free list grown by appending; a
`Map<string,string>` is an insertion-ordered association list where `set`
overwrites the value in place; records (plain objects) used as string maps
are association lists whose key order is insertion order, with object
spread overwriting values in place.  All strings in play are ASCII, so the
JavaScript UTF-16 index arithmetic (`slice`, `.length`) coincides with
per-character arithmetic on `String.data`.
-/

namespace RendererGo

/-- `s.startsWith(pre)` from JavaScript, on ASCII strings. -/
def strStartsWith (s pre : String) : Bool :=
  pre.data.isPrefixOf s.data

/-- `s.slice(n)` from JavaScript, on ASCII strings. -/
def strDrop (s : String) (n : Nat) : String :=
  String.mk (s.data.drop n)

/-- `Map.set` / object-spread update on an insertion-ordered association
list: overwrite the value at an existing key in place, otherwise append. -/
def assocSet (l : List (String × String)) (k v : String) : List (String × String) :=
  match l with
  | [] => [(k, v)]
  | (k', v') :: rest => if k' = k then (k, v) :: rest else (k', v') :: assocSet rest k v

/-- Keys of an association list. -/
def assocKeys (l : List (String × String)) : List String := l.map Prod.fst

/-- `{...base, ...ext}` object spread for string records. -/
def spreadRecords (base ext : List (String × String)) : List (String × String) :=
  ext.foldl (fun acc p => assocSet acc p.1 p.2) base

/-- The Go dependency set: a set of import identifiers plus an alias map
(`ImportMap` from `src/ImportMap.ts`). -/
structure ImportMap where
  imports : List String
  aliases : List (String × String)
deriving Repr, DecidableEq

/-- `new ImportMap()`. -/
def ImportMap.empty : ImportMap := ⟨[], []⟩

/-- `Set.add` of a single identifier (`this._imports.add(i)`). -/
def ImportMap.addOne (m : ImportMap) (i : String) : ImportMap :=
  if i ∈ m.imports then m else { m with imports := m.imports ++ [i] }

/-- `ImportMap.add`: add each identifier in order. -/
def ImportMap.add (m : ImportMap) (is : List String) : ImportMap :=
  is.foldl ImportMap.addOne m

/-- `ImportMap.addAlias`: `this._aliases.set(importName, alias)`. -/
def ImportMap.addAlias (m : ImportMap) (importName alias' : String) : ImportMap :=
  { m with aliases := assocSet m.aliases importName alias' }

/-- `ImportMap.mergeWith` with a single argument: add the other's imports,
then replay its aliases through `addAlias`. -/
def ImportMap.mergeWith (m other : ImportMap) : ImportMap :=
  let m1 := m.add other.imports
  other.aliases.foldl (fun acc p => acc.addAlias p.1 p.2) m1

/-- Variadic `ImportMap.mergeWith(...others)`: left-to-right merge. -/
def ImportMap.mergeWithMany (m : ImportMap) (others : List ImportMap) : ImportMap :=
  others.foldl ImportMap.mergeWith m

/-- `DEFAULT_MODULE_MAP` from `src/ImportMap.ts`: internal namespace keys
that resolve to the same generated package (empty path). -/
def DEFAULT_MODULE_MAP : List (String × String) :=
  [("generated", ""), ("generatedAccounts", ""), ("generatedErrors", ""),
   ("generatedInstructions", ""), ("generatedTypes", ""), ("hooked", "")]

/-- The inner `resolveDependency` closure of
`ImportMap.resolveDependencyMap`: the first map key `k` with
`i.startsWith(k + "::")` rewrites `i` to `value + i.slice(k.length)`,
an empty mapped value deletes the identifier, no match leaves it alone. -/
def resolveDependency (depMap : List (String × String)) (i : String) : String :=
  match depMap.find? (fun kv => strStartsWith i (kv.1 ++ "::")) with
  | none => i
  | some kv => if kv.2 = "" then "" else kv.2 ++ strDrop i kv.1.data.length

/-- One step of the import-resolution fold in `resolveDependencyMap`:
add the resolved identifier unless it resolved to the empty string. -/
def resolveImportsStep (depMap : List (String × String)) (acc : ImportMap) (i : String) :
    ImportMap :=
  let resolved := resolveDependency depMap i
  if resolved ≠ "" then acc.addOne resolved else acc

/-- One step of the alias-resolution fold in `resolveDependencyMap`:
re-register the alias under the resolved identifier unless it resolved to
the empty string. -/
def resolveAliasesStep (depMap : List (String × String)) (acc : ImportMap)
    (p : String × String) : ImportMap :=
  let resolved := resolveDependency depMap p.1
  if resolved ≠ "" then acc.addAlias resolved p.2 else acc

/-- `ImportMap.resolveDependencyMap(dependencies)`: extend the default
module map with the caller's dependencies, then rebuild a fresh map from
the resolved imports and aliases, dropping identifiers that resolve to
the empty string. -/
def ImportMap.resolveDependencyMap (m : ImportMap) (dependencies : List (String × String)) :
    ImportMap :=
  let depMap := spreadRecords DEFAULT_MODULE_MAP dependencies
  let step1 := m.imports.foldl (resolveImportsStep depMap) ImportMap.empty
  m.aliases.foldl (resolveAliasesStep depMap) step1

/-- Hypothesis under which dependency resolution is idempotent: no
non-empty mapped value of the extended dependency map shares a
`::`-terminated prefix with any key, in either direction, so a rewritten
identifier can never match a key again.  (All-empty default maps and
ordinary external paths such as `github.com/...` satisfy this.) -/
def goodDepMap (depMap : List (String × String)) : Prop :=
  ∀ kv ∈ depMap, kv.2 ≠ "" → ∀ kv' ∈ depMap,
    strStartsWith (kv.2 ++ "::") (kv'.1 ++ "::") = false
    ∧ strStartsWith (kv'.1 ++ "::") (kv.2 ++ "::") = false

/-! ## Schema type tree and naming context -/

/-- `parentSize` ambient context: `NumberTypeNode | number | null` in the
source is modelled as `Option PSize` with the two non-null shapes below. -/
inductive PSize where
  | num (n : Nat)
  | pfx (format endian : String)
deriving Repr, DecidableEq

/-- The schema type tree (the registered type-node kinds the visitor
handles, plus defined types, links and accounts).  `structType` fields and
enum variants are themselves nodes (`structFieldType`, the three enum
variant kinds), mirroring the Codama node shapes. -/
inductive TypeNode where
  | numberType (format endian : String)
  | booleanType (sizeFormat sizeEndian : String)
  | bytesType
  | stringType (encoding : String)
  | publicKeyType
  | arrayTypeFixed (item : TypeNode) (count : Nat)
  | arrayTypePrefixed (item : TypeNode) (prefixFormat prefixEndian : String)
  | arrayTypeRemainder (item : TypeNode)
  | setType (item : TypeNode)
  | mapType (key value : TypeNode)
  | optionType (item : TypeNode)
  | tupleType (items : List TypeNode)
  | structFieldType (name : String) (fieldType : TypeNode) (docs : List String)
  | structType (fields : List TypeNode)
  | enumEmptyVariantType (name : String)
  | enumStructVariantType (name : String) (structNode : TypeNode)
  | enumTupleVariantType (name : String) (tupleNode : TypeNode)
  | enumType (variants : List TypeNode)
  | fixedSizeType (size : Nat) (child : TypeNode)
  | sizePrefixType (prefixFormat prefixEndian : String) (child : TypeNode)
  | definedTypeLink (name : String)
  | definedType (name : String) (child : TypeNode)
  | accountNode (name : String) (dataNode : TypeNode)
  | remainderOptionType
  | zeroableOptionType

/-- The traversal-scoped naming context: the closure variables
`parentName`, `nestedStruct`, `inlineStruct`, `parentSize`,
`isOptionField` of `getTypeManifestVisitor`. -/
structure Ctx where
  parentName : Option String
  nestedStruct : Bool
  inlineStruct : Bool
  parentSize : Option PSize
  isOptionField : Bool
deriving Repr, DecidableEq

/-- The visitor's initial context, from the `getTypeManifestVisitor`
options (`inlineStruct` starts `false`, `parentSize` `null`,
`isOptionField` `false`). -/
def initCtx (parentName : Option String := none) (nestedStruct : Bool := false) : Ctx :=
  ⟨parentName, nestedStruct, false, none, false⟩

/-- Fatal errors thrown by the type manifest engine. -/
inductive VErr where
  | boolNotSupported
  | endianNotSupported
  | formatNotSupported (format : String)
  | missingParentName (who : String)
  | unsupportedNode (kind : String)
deriving Repr, DecidableEq

/-- The engine's output per node: target type syntax, hoisted nested
declarations, and a dependency set. -/
structure TypeManifest where
  imports : ImportMap
  nestedStructs : List String
  typeStr : String
deriving Repr, DecidableEq

/-- `mergeManifests` from `src/getTypeManifestVisitor.ts` (imports and
nested structs only; the caller supplies the type string). -/
def mergeManifests (manifests : List TypeManifest) : ImportMap × List String :=
  (ImportMap.empty.mergeWithMany (manifests.map TypeManifest.imports),
   manifests.flatMap TypeManifest.nestedStructs)

/-- Splits a character list on the word separators space, dash and
underscore. -/
def pascalWords : List Char → List (List Char)
  | [] => [[]]
  | ch :: cs =>
    let rest := pascalWords cs
    if ch = ' ' ∨ ch = '-' ∨ ch = '_' then [] :: rest
    else
      match rest with
      | [] => [[ch]]
      | w :: ws => (ch :: w) :: ws

/-- Modelled from the spec: `pascalCase` of the external `@codama/nodes`
package ("PascalCase-normalized" naming).  Words split on spaces, dashes
and underscores are capitalized and concatenated. -/
def pascalCase (s : String) : String :=
  String.join ((pascalWords s.data).map
    (fun w => match w with
      | [] => ""
      | ch :: cs => String.mk (ch.toUpper :: cs)))

/-- Modelled from the spec: `parseDocs`/`goDocComment` of the external
utils; a node with no doc lines contributes an empty doc block, doc lines
render as Go line comments.  (All claims below use empty docs.) -/
def goDocComment (docs : List String) : String :=
  match docs with
  | [] => ""
  | _ => String.join (docs.map (fun d => "// " ++ d ++ "\n"))

/-- `NUMBER_FORMAT_MAP`: Codama number formats to Go types. -/
def numberFormatMap : List (String × String) :=
  [("f32", "float32"), ("f64", "float64"),
   ("i8", "int8"), ("i16", "int16"), ("i32", "int32"), ("i64", "int64"),
   ("i128", "ag_binary.Int128"),
   ("u8", "uint8"), ("u16", "uint16"), ("u32", "uint32"), ("u64", "uint64"),
   ("u128", "ag_binary.Uint128"), ("shortU16", "uint16")]

/-- `isScalarEnum` of `@codama/nodes`, per the spec: a scalar enum is one
all of whose variants are empty. -/
def isScalarVariants (variants : List TypeNode) : Bool :=
  variants.all fun v =>
    match v with
    | .enumEmptyVariantType _ => true
    | _ => false

/-- The `constLines` construction of the scalar-enum branch of
`visitEnumType`: line `index` declares `typeName_variantType`, with the
Go `iota` initializer on the first line only. -/
def scalarConstLinesAux (typeName : String) : Nat → List String → List String
  | _, [] => []
  | index, t :: ts =>
    (if index = 0 then
      "\t" ++ typeName ++ "_" ++ t ++ " " ++ typeName ++ " = iota"
    else
      "\t" ++ typeName ++ "_" ++ t) :: scalarConstLinesAux typeName (index + 1) ts

/-- `constLines` of the scalar-enum branch, starting at index 0. -/
def scalarConstLines (typeName : String) (variantTypes : List String) : List String :=
  scalarConstLinesAux typeName 0 variantTypes

/-- Weight used as the termination measure of the visitor (a node's
weight is `wCore + 1`).  `bytesType` gets core weight 2 because
`visitBytesType` re-dispatches on a freshly built
`arrayTypeNode(numberTypeNode('u8'), …)`, which has core weight 1. -/
def TypeNode.wCore : TypeNode → Nat
  | .numberType _ _ => 0
  | .booleanType _ _ => 0
  | .bytesType => 2
  | .stringType _ => 0
  | .publicKeyType => 0
  | .arrayTypeFixed item _ => item.wCore + 1
  | .arrayTypePrefixed item _ _ => item.wCore + 1
  | .arrayTypeRemainder item => item.wCore + 1
  | .setType item => item.wCore + 1
  | .mapType k v => k.wCore + v.wCore + 2
  | .optionType item => item.wCore + 1
  | .tupleType items => wListCore items
  | .structFieldType _ t _ => t.wCore + 1
  | .structType fields => wListCore fields
  | .enumEmptyVariantType _ => 0
  | .enumStructVariantType _ s => s.wCore + 1
  | .enumTupleVariantType _ t => t.wCore + 1
  | .enumType variants => wListCore variants
  | .fixedSizeType _ c => c.wCore + 1
  | .sizePrefixType _ _ c => c.wCore + 1
  | .definedTypeLink _ => 0
  | .definedType _ c => c.wCore + 1
  | .accountNode _ c => c.wCore + 1
  | .remainderOptionType => 0
  | .zeroableOptionType => 0
where
  wListCore : List TypeNode → Nat
    | [] => 0
    | t :: ts => (t.wCore + 1) + wListCore ts

/-- `\tField{i} {type}` lines of the multi-element tuple emission. -/
def tupleFieldLines : Nat → List TypeManifest → List String
  | _, [] => []
  | i, m :: ms => ("\tField" ++ toString i ++ " " ++ m.typeStr) :: tupleFieldLines (i + 1) ms

mutual

/-- The type manifest engine: `getTypeManifestVisitor`'s dispatch, with
the five closure variables threaded explicitly as `Ctx`.  A thrown
JavaScript exception becomes `.error`, and the context returned alongside
it is the state the closure variables are left in at the throw site (the
source has no `try`/`finally`, so mutations made before a throw
survive it). -/
def visitNode : TypeNode → Ctx → Except VErr TypeManifest × Ctx
  | .numberType format endian, c =>
    if endian ≠ "le" then (.error .endianNotSupported, c)
    else
      match numberFormatMap.lookup format with
      | none => (.error (.formatNotSupported format), c)
      | some goType =>
        (.ok ⟨if strStartsWith goType "ag_binary." then
                ImportMap.empty.addOne "github.com/gagliardetto/binary"
              else ImportMap.empty,
              [], goType⟩, c)
  | .booleanType sizeFormat sizeEndian, c =>
    if sizeFormat = "u8" ∧ sizeEndian = "le" then
      (.ok ⟨ImportMap.empty, [], "bool"⟩, c)
    else (.error .boolNotSupported, c)
  | .bytesType, c =>
    -- visitBytesType builds `arrayTypeNode(numberTypeNode('u8'), arraySize)`
    -- (u8 numbers default to little-endian) and re-dispatches on it.
    match c.parentSize with
    | some (.num n) => visitNode (.arrayTypeFixed (.numberType "u8" "le") n) c
    | some (.pfx f e) => visitNode (.arrayTypePrefixed (.numberType "u8" "le") f e) c
    | none => visitNode (.arrayTypeRemainder (.numberType "u8" "le")) c
  | .stringType _, c =>
    match c.parentSize with
    | none => (.ok ⟨ImportMap.empty, [], "string"⟩, c)
    | some (.num n) => (.ok ⟨ImportMap.empty, [], "[" ++ toString n ++ "]byte"⟩, c)
    | some (.pfx _ _) => (.ok ⟨ImportMap.empty, [], "string"⟩, c)
  | .publicKeyType, c =>
    (.ok ⟨ImportMap.empty.addOne "github.com/gagliardetto/solana-go", [],
          "ag_solanago.PublicKey"⟩, c)
  | .arrayTypeFixed item count, c =>
    let rc := visitNode item c
    match rc.1 with
    | .error e => (.error e, rc.2)
    | .ok m => (.ok { m with typeStr := "[" ++ toString count ++ "]" ++ m.typeStr }, rc.2)
  | .arrayTypePrefixed item _ _, c =>
    let rc := visitNode item c
    match rc.1 with
    | .error e => (.error e, rc.2)
    | .ok m => (.ok { m with typeStr := "[]" ++ m.typeStr }, rc.2)
  | .arrayTypeRemainder item, c =>
    let rc := visitNode item c
    match rc.1 with
    | .error e => (.error e, rc.2)
    | .ok m => (.ok { m with typeStr := "[]" ++ m.typeStr }, rc.2)
  | .setType item, c =>
    let rc := visitNode item c
    match rc.1 with
    | .error e => (.error e, rc.2)
    | .ok m => (.ok { m with typeStr := "map[" ++ m.typeStr ++ "]struct\x7b\x7d" }, rc.2)
  | .mapType key value, c =>
    let rk := visitNode key c
    match rk.1 with
    | .error e => (.error e, rk.2)
    | .ok km =>
      let rv := visitNode value rk.2
      match rv.1 with
      | .error e => (.error e, rv.2)
      | .ok vm =>
        let merged := mergeManifests [km, vm]
        (.ok ⟨merged.1, merged.2, "map[" ++ km.typeStr ++ "]" ++ vm.typeStr⟩, rv.2)
  | .optionType item, c =>
    -- isOptionField is set before the descent and reset to false after it
    -- (only when the descent returns normally).
    let rc := visitNode item { c with isOptionField := true }
    match rc.1 with
    | .error e => (.error e, rc.2)
    | .ok m =>
      (.ok { m with typeStr := "*" ++ m.typeStr }, { rc.2 with isOptionField := false })
  | .tupleType items, c =>
    let rc := visitList items c
    match rc.1 with
    | .error e => (.error e, rc.2)
    | .ok ms =>
      let merged := mergeManifests ms
      match ms with
      | [m] => (.ok ⟨merged.1, merged.2, m.typeStr⟩, rc.2)
      | _ =>
        (.ok ⟨merged.1, merged.2,
              "struct \x7b\n" ++ String.intercalate "\n" (tupleFieldLines 0 ms) ++ "\n\x7d"⟩,
         rc.2)
  | .structFieldType name fieldType docs, c =>
    match c.parentName with
    | none => (.error (.missingParentName "structFieldType"), c)
    | some originalParentName =>
      let rc := visitNode fieldType
        { c with parentName := some (pascalCase originalParentName ++ pascalCase name),
                 nestedStruct := true, inlineStruct := false }
      match rc.1 with
      | .error e => (.error e, rc.2)
      | .ok fieldManifest =>
        -- normal return: restore parentName/inlineStruct/nestedStruct,
        -- then consume isOptionField into the field tag.
        let c2 := { rc.2 with parentName := some originalParentName,
                              inlineStruct := c.inlineStruct,
                              nestedStruct := c.nestedStruct }
        let tags := if c2.isOptionField then ["bin:\"optional\""] else []
        let c3 := if c2.isOptionField then { c2 with isOptionField := false } else c2
        let tagStr := if tags.length > 0 then " `" ++ String.intercalate " " tags ++ "`" else ""
        (.ok { fieldManifest with
                typeStr := goDocComment docs ++ "\t" ++ pascalCase name ++ " "
                  ++ fieldManifest.typeStr ++ tagStr }, c3)
  | .structType fields, c =>
    match c.parentName with
    | none => (.error (.missingParentName "structType"), c)
    | some originalParentName =>
      let rc := visitList fields c
      match rc.1 with
      | .error e => (.error e, rc.2)
      | .ok ms =>
        let fieldTypes := String.intercalate "\n" (ms.map TypeManifest.typeStr)
        let merged := mergeManifests ms
        if rc.2.nestedStruct then
          (.ok ⟨merged.1,
                merged.2 ++ ["type " ++ pascalCase originalParentName ++ " struct \x7b\n"
                  ++ fieldTypes ++ "\n\x7d"],
                pascalCase originalParentName⟩, rc.2)
        else if rc.2.inlineStruct then
          (.ok ⟨merged.1, merged.2, "struct \x7b\n" ++ fieldTypes ++ "\n\x7d"⟩, rc.2)
        else
          (.ok ⟨merged.1, merged.2,
                "type " ++ pascalCase originalParentName ++ " struct \x7b\n"
                  ++ fieldTypes ++ "\n\x7d"⟩, rc.2)
  | .enumEmptyVariantType name, c =>
    (.ok ⟨ImportMap.empty, [], pascalCase name⟩, c)
  | .enumStructVariantType name structNode, c =>
    match c.parentName with
    | none => (.error (.missingParentName "enumStructVariantType"), c)
    | some originalParentName =>
      let variantName := pascalCase name
      let rc := visitNode structNode
        { c with inlineStruct := true,
                 parentName := some (pascalCase originalParentName ++ variantName) }
      match rc.1 with
      | .error e => (.error e, rc.2)
      | .ok m =>
        (.ok { m with typeStr := variantName ++ " " ++ m.typeStr },
         { rc.2 with inlineStruct := false, parentName := some originalParentName })
  | .enumTupleVariantType name tupleNode, c =>
    match c.parentName with
    | none => (.error (.missingParentName "enumTupleVariantType"), c)
    | some originalParentName =>
      let variantName := pascalCase name
      let rc := visitNode tupleNode
        { c with parentName := some (pascalCase originalParentName ++ variantName) }
      match rc.1 with
      | .error e => (.error e, rc.2)
      | .ok m =>
        (.ok { m with typeStr := variantName ++ " " ++ m.typeStr },
         { rc.2 with parentName := some originalParentName })
  | .enumType variants, c =>
    match c.parentName with
    | none => (.error (.missingParentName "enumType"), c)
    | some originalParentName =>
      let typeName := pascalCase originalParentName
      if isScalarVariants variants then
        let rc := visitList variants c
        match rc.1 with
        | .error e => (.error e, rc.2)
        | .ok ms =>
          let merged := mergeManifests ms
          let constLines := scalarConstLines typeName (ms.map TypeManifest.typeStr)
          (.ok ⟨merged.1, merged.2,
                "type " ++ typeName ++ " uint8" ++ "\n\n"
                  ++ "const (\n" ++ String.intercalate "\n" constLines ++ "\n)"⟩, rc.2)
      else
        let rc := visitList variants c
        match rc.1 with
        | .error e => (.error e, rc.2)
        | .ok ms =>
          let merged := mergeManifests ms
          let fieldLines := "\tEnum ag_binary.BorshEnum `borsh_enum:\"true\"`"
            :: ms.map (fun m => "\t" ++ m.typeStr)
          (.ok ⟨merged.1.addOne "github.com/gagliardetto/binary", merged.2,
                "type " ++ typeName ++ " struct \x7b\n"
                  ++ String.intercalate "\n" fieldLines ++ "\n\x7d"⟩, rc.2)
  | .fixedSizeType size child, c =>
    let rc := visitNode child { c with parentSize := some (.num size) }
    match rc.1 with
    | .error e => (.error e, rc.2)
    | .ok m => (.ok m, { rc.2 with parentSize := none })
  | .sizePrefixType prefixFormat prefixEndian child, c =>
    -- the ts source resolves the nested prefix number node; the model
    -- carries the resolved (format, endian) pair directly.
    let rc := visitNode child { c with parentSize := some (.pfx prefixFormat prefixEndian) }
    match rc.1 with
    | .error e => (.error e, rc.2)
    | .ok m => (.ok m, { rc.2 with parentSize := none })
  | .definedTypeLink name, c =>
    (.ok ⟨ImportMap.empty, [], pascalCase name⟩, c)
  | .definedType name child, c =>
    let rc := visitNode child { c with parentName := some (pascalCase name) }
    match rc.1 with
    | .error e => (.error e, rc.2)
    | .ok m =>
      let isEnumOrStruct := match child with
        | .enumType _ => true
        | .structType _ => true
        | _ => false
      (.ok { m with typeStr :=
              if isEnumOrStruct then m.typeStr
              else "type " ++ pascalCase name ++ " = " ++ m.typeStr },
       { rc.2 with parentName := none })
  | .accountNode name dataNode, c =>
    let rc := visitNode dataNode { c with parentName := some (pascalCase name) }
    match rc.1 with
    | .error e => (.error e, rc.2)
    | .ok m => (.ok m, { rc.2 with parentName := none })
  | .remainderOptionType, c =>
    (.error (.unsupportedNode "remainderOptionTypeNode"), c)
  | .zeroableOptionType, c =>
    (.error (.unsupportedNode "zeroableOptionTypeNode"), c)
termination_by t _ => 2 * (t.wCore + 1)
decreasing_by
  all_goals simp only [TypeNode.wCore, TypeNode.wCore.wListCore]
  all_goals omega

/-- Sequential `nodes.map(node => visit(node, self))`: state threads left
to right and the first thrown error aborts the remaining visits. -/
def visitList : List TypeNode → Ctx → Except VErr (List TypeManifest) × Ctx
  | [], c => (.ok [], c)
  | t :: ts, c =>
    let rc := visitNode t c
    match rc.1 with
    | .error e => (.error e, rc.2)
    | .ok m =>
      let rs := visitList ts rc.2
      match rs.1 with
      | .error e => (.error e, rs.2)
      | .ok ms => (.ok (m :: ms), rs.2)
termination_by ts _ => 2 * TypeNode.wCore.wListCore ts + 1
decreasing_by
  all_goals simp only [TypeNode.wCore, TypeNode.wCore.wListCore]
  all_goals omega

end

/-! ## Schema value tree and the value renderer -/

/-- The schema value tree (`renderValueNodeVisitor.ts`).  A bytes literal
carries its decoded byte list (the external `getBytesFromBytesValueNode`
decoding of base16/base64/utf8 payloads is out of scope; the claims only
concern already-decoded bytes).  The `constantValue` kind is not needed by
any claim and is omitted. -/
inductive ValueNode where
  | booleanValue (b : Bool)
  | numberValue (n : Int)
  | stringValue (s : String)
  | bytesValue (bytes : List Nat)
  | arrayValue (items : List ValueNode)
  | setValue (items : List ValueNode)
  | mapValue (entries : List ValueNode)
  | mapEntryValue (key value : ValueNode)
  | tupleValue (items : List ValueNode)
  | structValue (fields : List ValueNode)
  | structFieldValue (name : String) (value : ValueNode)
  | enumValue (enumName variant : String) (value : Option ValueNode)
  | someValue (value : ValueNode)
  | noneValue
  | publicKeyValue (pk : String)

/-- The value renderer's per-node output: a literal expression plus a
dependency set. -/
structure RVal where
  imports : ImportMap
  render : String
deriving Repr, DecidableEq

/-- `JSON.stringify` on an ASCII string: wrap in quotes, escaping quote
and backslash characters (control-character escapes are out of scope;
no claim uses them). -/
def jsonQuote (s : String) : String :=
  "\"" ++ String.mk (s.data.flatMap
    (fun ch => if ch = '"' ∨ ch = '\\' then ['\\', ch] else [ch])) ++ "\""

/-- Termination core weight for value nodes; `bytesValue` dominates the
`arrayValue` of per-byte number nodes it re-dispatches on. -/
def ValueNode.vCore : ValueNode → Nat
  | .booleanValue _ => 0
  | .numberValue _ => 0
  | .stringValue _ => 0
  | .bytesValue bs => bs.length + 1
  | .arrayValue items => vListCore items
  | .setValue items => vListCore items
  | .mapValue entries => vListCore entries
  | .mapEntryValue k v => k.vCore + v.vCore + 2
  | .tupleValue items => vListCore items
  | .structValue fields => vListCore fields
  | .structFieldValue _ v => v.vCore + 1
  | .enumValue _ _ (some v) => v.vCore + 1
  | .enumValue _ _ none => 0
  | .someValue v => v.vCore + 1
  | .noneValue => 0
  | .publicKeyValue _ => 0
where
  vListCore : List ValueNode → Nat
    | [] => 0
    | v :: vs => (v.vCore + 1) + vListCore vs

mutual

/-- The value renderer (`renderValueNodeVisitor`): literal value nodes to
Go literal expressions plus dependency sets.  It carries no mutable
state and, on the embedded node kinds, throws no errors. -/
def renderValue : ValueNode → RVal
  | .arrayValue items =>
    let list := renderList items
    ⟨ImportMap.empty.mergeWithMany (list.map RVal.imports),
     "[]byte\x7b" ++ String.intercalate ", " (list.map RVal.render) ++ "\x7d"⟩
  | .booleanValue b =>
    ⟨ImportMap.empty, if b then "true" else "false"⟩
  | .bytesValue bs =>
    -- builds `arrayValueNode(Array.from(bytes).map(numberValueNode))`
    -- and re-dispatches on it.
    renderValue (.arrayValue (bs.map (fun b => .numberValue (Int.ofNat b))))
  | .enumValue enumName variant none =>
    ⟨ImportMap.empty, pascalCase enumName ++ "_" ++ pascalCase variant⟩
  | .enumValue enumName variant (some v) =>
    let ev := renderValue v
    ⟨ImportMap.empty.mergeWith ev.imports,
     pascalCase enumName ++ "_" ++ pascalCase variant ++ " " ++ ev.render⟩
  | .mapEntryValue k v =>
    let mk := renderValue k
    let mv := renderValue v
    ⟨mk.imports.mergeWith mv.imports, mk.render ++ ": " ++ mv.render⟩
  | .mapValue entries =>
    let list := renderList entries
    ⟨ImportMap.empty.mergeWithMany (list.map RVal.imports),
     "map[string]interface\x7b\x7d\x7b"
       ++ String.intercalate ", " (list.map RVal.render) ++ "\x7d"⟩
  | .noneValue => ⟨ImportMap.empty, "nil"⟩
  | .numberValue n => ⟨ImportMap.empty, toString n⟩
  | .publicKeyValue pk =>
    ⟨ImportMap.empty.addOne "github.com/gagliardetto/solana-go",
     "ag_solanago.MustPublicKeyFromBase58(\"" ++ pk ++ "\")"⟩
  | .setValue items =>
    let list := renderList items
    ⟨ImportMap.empty.mergeWithMany (list.map RVal.imports),
     "map[interface\x7b\x7d]struct\x7b\x7d\x7b"
       ++ String.intercalate ", " (list.map (fun r => r.render ++ ": \x7b\x7d")) ++ "\x7d"⟩
  | .someValue v =>
    let child := renderValue v
    ⟨child.imports,
     "func() *interface\x7b\x7d \x7b v := " ++ child.render ++ "; return &v \x7d()"⟩
  | .stringValue s => ⟨ImportMap.empty, jsonQuote s⟩
  | .structFieldValue name v =>
    let sv := renderValue v
    ⟨sv.imports, pascalCase name ++ ": " ++ sv.render⟩
  | .structValue fields =>
    let list := renderList fields
    ⟨ImportMap.empty.mergeWithMany (list.map RVal.imports),
     "\x7b" ++ String.intercalate ", " (list.map RVal.render) ++ "\x7d"⟩
  | .tupleValue items =>
    let list := renderList items
    ⟨ImportMap.empty.mergeWithMany (list.map RVal.imports),
     match list with
     | [single] => single.render
     | _ => "[" ++ String.intercalate ", " (list.map RVal.render) ++ "]"⟩
termination_by v => 2 * (v.vCore + 1)
decreasing_by
  all_goals
    have hmap : ∀ l : List Nat,
        ValueNode.vCore.vListCore (l.map (fun b => ValueNode.numberValue (Int.ofNat b)))
          = l.length := by
      intro l
      induction l with
      | nil => rfl
      | cons b bs ih =>
        simp only [List.map_cons, ValueNode.vCore.vListCore, ValueNode.vCore,
          List.length_cons, ih]
        omega
    simp only [ValueNode.vCore, ValueNode.vCore.vListCore, hmap]
    omega

/-- Element-wise `items.map(v => visit(v, this))`. -/
def renderList : List ValueNode → List RVal
  | [] => []
  | v :: vs => renderValue v :: renderList vs
termination_by vs => 2 * ValueNode.vCore.vListCore vs + 1
decreasing_by
  all_goals simp only [ValueNode.vCore, ValueNode.vCore.vListCore]
  all_goals omega

end

/-! ## Instruction account/argument name collisions (render-map assembly) -/

/-- An instruction's name, account parameter names and data argument
names: the parts of `InstructionNode` that the collision detection and
argument-name rendering of `visitInstruction` read. -/
structure InstructionNode where
  name : String
  accounts : List String
  args : List String

/-- The indexed filter `allNames.filter((e, i, a) => a.indexOf(e) !== i)`
of `getConflictsForInstructionAccountsAndArgs`: keep every element whose
position is not its first occurrence. -/
def dupFilterAux (full : List String) : Nat → List String → List String
  | _, [] => []
  | i, e :: rest =>
    if full.indexOf e ≠ i then e :: dupFilterAux full (i + 1) rest
    else dupFilterAux full (i + 1) rest

/-- `duplicates` of `getConflictsForInstructionAccountsAndArgs`. -/
def jsDuplicates (l : List String) : List String := dupFilterAux l 0 l

/-- `[...new Set(duplicates)]`: first-occurrence order deduplication. -/
def jsSetDedup (l : List String) : List String :=
  l.foldl (fun acc e => if e ∈ acc then acc else acc ++ [e]) []

/-- `getConflictsForInstructionAccountsAndArgs` from
`getRenderMapVisitor.ts`: duplicate names in the concatenation of account
names and argument names, deduplicated. -/
def getConflictsForInstructionAccountsAndArgs (instruction : InstructionNode) : List String :=
  jsSetDedup (jsDuplicates (instruction.accounts ++ instruction.args))

/-- The argument-name disambiguation inside `visitInstruction`: an
argument whose name is in the conflict list is rendered with an `Arg`
suffix. -/
def instructionArgRenderedNames (instruction : InstructionNode) : List String :=
  let conflicts := getConflictsForInstructionAccountsAndArgs instruction
  instruction.args.map (fun a => if a ∈ conflicts then a ++ "Arg" else a)

/-- The non-fatal warning `visitInstruction` emits through `logWarn` when
the conflict list is nonempty (generation continues either way). -/
def instructionWarnings (instruction : InstructionNode) : List String :=
  let conflicts := getConflictsForInstructionAccountsAndArgs instruction
  if conflicts.length > 0 then
    ["[Go] Accounts and args of instruction [" ++ instruction.name ++ "] have the following "
      ++ "conflicting attributes [" ++ String.intercalate ", " conflicts ++ "]. "
      ++ "Thus, the conflicting arguments will be suffixed with \"Arg\". "
      ++ "You may want to rename the conflicting attributes."]
  else []

/-! ## Derived observations and concrete inputs used by the claims -/

/-- The name under which a payload-carrying enum variant's aggregate is
emitted: both `visitEnumStructVariantType` and `visitEnumTupleVariantType`
compute `const name = pascalCase(variant.name)` and return
`` `${name} ${payload}` ``, so the aggregate field is named by the
variant's own PascalCase name.  Empty variants carry no payload
aggregate. -/
def variantAggregateName : TypeNode → Option String
  | .enumStructVariantType n _ => some (pascalCase n)
  | .enumTupleVariantType n _ => some (pascalCase n)
  | _ => none

/-- Payload-aggregate names of an enum's variant list, in declaration
order. -/
def variantAggregateNames (variants : List TypeNode) : List String :=
  variants.filterMap variantAggregateName

/-- Modelled from the Go language specification: in a `const` block whose
first ConstSpec carries the expression `iota` and whose later specs carry
no expression, each spec repeats the expression and `iota` equals the
spec index, so the i-th line's ordinal is `i`; the block's ordinal
sequence is `0, …, n-1` in declaration order. -/
def constBlockOrdinals (lines : List String) : List Nat :=
  List.range lines.length

/-- The spec's worked example `Point` `{ x: u8, y: option<u8> }` as a
defined type node. -/
def pointNode : TypeNode :=
  .definedType "point" (.structType
    [.structFieldType "x" (.numberType "u8" "le") [],
     .structFieldType "y" (.optionType (.numberType "u8" "le")) []])

/-- A data enum `feedback` with a struct variant `good { x: u8 }` and an
empty variant `bad`. -/
def feedbackVariants : List TypeNode :=
  [.enumStructVariantType "good" (.structType [.structFieldType "x" (.numberType "u8" "le") []]),
   .enumEmptyVariantType "bad"]

/-- The `feedback` data enum as a defined type node. -/
def feedbackEnumNode : TypeNode := .definedType "feedback" (.enumType feedbackVariants)

/-! ## Claim theorems -/

/-- C1: evaluation of the code at the claim's worked example.  The claim
says an option-typed struct field is rendered as a pointer type AND
carries the option-presence annotation (`bin:"optional"`).  Rendering
`Point { x: u8, y: option<u8> }` does produce the pointer type `*uint8`
for `y`, but the emitted declaration carries no annotation on any field:
`visitOptionType` resets `isOptionField` to `false` before returning, so
the tag branch in `visitStructFieldType` can never fire. -/
theorem C1_point_option_annotation_missing :
    (visitNode pointNode (initCtx)).1 =
      .ok ⟨ImportMap.empty, [], "type Point struct \x7b\n\tX uint8\n\tY *uint8\n\x7d"⟩
    ∧ "type Point struct \x7b\n\tX uint8\n\tY *uint8\n\x7d"
        ≠ "type Point struct \x7b\n\tX uint8\n\tY *uint8 `bin:\"optional\"`\n\x7d" := by
  constructor
  · simp [visitNode, visitList, pointNode, initCtx, mergeManifests, ImportMap.empty,
      ImportMap.mergeWithMany, ImportMap.mergeWith, ImportMap.add, ImportMap.addOne,
      numberFormatMap, strStartsWith, List.lookup]
    all_goals decide
  · decide

/-- C3: for every numeric schema node whose endianness is not
little-endian, the type manifest engine fails with the endianness
configuration error, returns no manifest, and leaves the naming context
untouched. -/
theorem C3_number_non_le_endian_fatal (format endian : String) (c : Ctx)
    (h : endian ≠ "le") :
    visitNode (.numberType format endian) c = (.error .endianNotSupported, c) := by
  simp [visitNode, h]

/-- C3 witness: a big-endian u16 number node fails with the endianness
error. -/
theorem C3_number_non_le_endian_fatal_witness :
    visitNode (.numberType "u16" "be") (initCtx) = (.error .endianNotSupported, initCtx) :=
  C3_number_non_le_endian_fatal "u16" "be" (initCtx) (by decide)

/-- C7: a fixed-size wrapper of 4 bytes around a bytes node emits the
4-element fixed-length byte container type `[4]uint8` (in any context),
and the value renderer turns a matching 4-byte literal into a byte-slice
literal enumerating exactly those 4 bytes. -/
theorem C7_fixed_bytes_type_and_literal (c : Ctx) (b0 b1 b2 b3 : Nat) :
    (visitNode (.fixedSizeType 4 .bytesType) c).1 = .ok ⟨ImportMap.empty, [], "[4]uint8"⟩
    ∧ (renderValue (.bytesValue [b0, b1, b2, b3])).render
        = "[]byte\x7b" ++ String.intercalate ", "
            [toString b0, toString b1, toString b2, toString b3] ++ "\x7d" := by
  constructor
  · simp [visitNode, numberFormatMap, strStartsWith, List.lookup, ImportMap.empty]
    all_goals decide
  · have hts : ∀ n : Nat, toString (n : Int) = toString n := fun _ => rfl
    simp [renderValue, renderList, String.intercalate, hts]

/-- C9 counterexample: the fixed-size wrapper does NOT restore the
previous `parentSize` value — it clears it to `null`.  Starting from a
context whose `parentSize` is `2`, visiting `fixedSize(4, bytes)` leaves
`parentSize = null`, not `2`; observably, in
`fixedSize(2, tuple(fixedSize(4, bytes), bytes))` the second bytes child
renders as the remainder slice `[]uint8` instead of the `[2]uint8` that
restore-semantics would produce. -/
theorem C9_counterexample :
    (visitNode (.fixedSizeType 4 .bytesType) ⟨none, false, false, some (.num 2), false⟩).2.parentSize
        = none
    ∧ ¬ ((visitNode (.fixedSizeType 4 .bytesType) ⟨none, false, false, some (.num 2), false⟩).2.parentSize
          = (⟨none, false, false, some (.num 2), false⟩ : Ctx).parentSize)
    ∧ (visitNode (.fixedSizeType 2 (.tupleType [.fixedSizeType 4 .bytesType, .bytesType])) (initCtx)).1
        = .ok ⟨ImportMap.empty, [], "struct \x7b\n\tField0 [4]uint8\n\tField1 []uint8\n\x7d"⟩ := by
  refine ⟨?_, ?_, ?_⟩
  all_goals
    simp [visitNode, visitList, initCtx, mergeManifests, ImportMap.empty, ImportMap.mergeWithMany,
      ImportMap.mergeWith, ImportMap.add, ImportMap.addOne, numberFormatMap, strStartsWith,
      List.lookup, tupleFieldLines]
  all_goals decide

/-- C9 (amended): the fixed-size and size-prefix wrappers install
`parentSize` for the descent into their single child, return the child's
manifest unchanged (no manifest entry of their own), and afterwards clear
`parentSize` to `null` (which coincides with restoring it only when the
prior value was `null`); a bytes child really sees the installed size. -/
theorem C9_wrappers_install_and_clear (sz : Nat) (pf pe : String) (t : TypeNode) (c : Ctx) :
    (∀ m c', visitNode t { c with parentSize := some (.num sz) } = (.ok m, c') →
        visitNode (.fixedSizeType sz t) c = (.ok m, { c' with parentSize := none }))
    ∧ (∀ m c', visitNode t { c with parentSize := some (.pfx pf pe) } = (.ok m, c') →
        visitNode (.sizePrefixType pf pe t) c = (.ok m, { c' with parentSize := none }))
    ∧ (visitNode (.fixedSizeType sz .bytesType) c).1
        = .ok ⟨ImportMap.empty, [], "[" ++ toString sz ++ "]uint8"⟩ := by
  refine ⟨?_, ?_, ?_⟩
  · intro m c' h
    simp [visitNode, h]
  · intro m c' h
    simp [visitNode, h]
  · have hcat : "]" ++ "uint8" = "]uint8" := rfl
    simp [visitNode, numberFormatMap, strStartsWith, List.lookup, ImportMap.empty,
      String.append_assoc, hcat]

/-- C9 witness: `fixedSize(4, string)` renders its child as `[4]byte`
under the installed size and hands back a context with `parentSize`
cleared. -/
theorem C9_wrappers_install_and_clear_witness :
    visitNode (.fixedSizeType 4 (.stringType "utf8")) (initCtx)
      = (.ok ⟨ImportMap.empty, [], "[4]byte"⟩, initCtx) := by
  have h := (C9_wrappers_install_and_clear 4 "u32" "le" (.stringType "utf8") (initCtx)).1
    ⟨ImportMap.empty, [], "[4]byte"⟩ { initCtx with parentSize := some (.num 4) }
    (by simp [visitNode, initCtx]
        all_goals decide)
  simpa [initCtx] using h

/-- C8 counterexample: the naming context is NOT restored on error paths.
Visiting `fixedSize(4, u8-big-endian)` throws the endianness error from
inside the descent, and afterwards `parentSize` still holds the
mid-descent value `4` instead of the pre-visit `null`. -/
theorem C8_counterexample :
    (visitNode (.fixedSizeType 4 (.numberType "u8" "be")) (initCtx)).1
        = .error .endianNotSupported
    ∧ (visitNode (.fixedSizeType 4 (.numberType "u8" "be")) (initCtx)).2.parentSize
        = some (.num 4)
    ∧ (initCtx).parentSize = none := by
  refine ⟨?_, ?_, ?_⟩
  all_goals simp [visitNode, initCtx]

/-- C8 (amended): on successful returns the save/restore visitors do
restore their saved context: a struct-field visit restores `parentName`,
`inlineStruct` and `nestedStruct` and always leaves `isOptionField`
consumed to `false`; an enum struct-variant visit restores `parentName`
and clears `inlineStruct` to `false`; an enum tuple-variant visit
restores `parentName`.  (On error paths nothing is restored, see the
counterexample.) -/
theorem C8_success_paths_restore_context (name : String) (t : TypeNode) (docs : List String)
    (c : Ctx) :
    (∀ m c', visitNode (.structFieldType name t docs) c = (.ok m, c') →
        c'.parentName = c.parentName ∧ c'.inlineStruct = c.inlineStruct
          ∧ c'.nestedStruct = c.nestedStruct ∧ c'.isOptionField = false)
    ∧ (∀ m c', visitNode (.enumStructVariantType name t) c = (.ok m, c') →
        c'.parentName = c.parentName ∧ c'.inlineStruct = false)
    ∧ (∀ m c', visitNode (.enumTupleVariantType name t) c = (.ok m, c') →
        c'.parentName = c.parentName) := by
  refine ⟨?_, ?_, ?_⟩
  · intro m c' h
    simp only [visitNode] at h
    rcases hpn : c.parentName with _ | pn
    · simp only [hpn] at h
      simp at h
    · simp only [hpn] at h
      rcases hrc : visitNode t { c with parentName := some (pascalCase pn ++ pascalCase name), nestedStruct := true, inlineStruct := false } with ⟨r1, cmid⟩
      simp only [hrc] at h
      rcases r1 with e | fm
      · simp at h
      · by_cases hopt : cmid.isOptionField
        · simp [hopt] at h
          obtain ⟨hm, rfl⟩ := h
          simp [hpn]
        · simp [hopt] at h
          obtain ⟨hm, rfl⟩ := h
          simp [hpn]
  · intro m c' h
    simp only [visitNode] at h
    rcases hpn : c.parentName with _ | pn
    · simp only [hpn] at h
      simp at h
    · simp only [hpn] at h
      rcases hrc : visitNode t { c with inlineStruct := true, parentName := some (pascalCase pn ++ pascalCase name) } with ⟨r1, cmid⟩
      simp only [hrc] at h
      rcases r1 with e | fm
      · simp at h
      · obtain ⟨hm, rfl⟩ := h
        simp [hpn]
  · intro m c' h
    simp only [visitNode] at h
    rcases hpn : c.parentName with _ | pn
    · simp only [hpn] at h
      simp at h
    · simp only [hpn] at h
      rcases hrc : visitNode t { c with parentName := some (pascalCase pn ++ pascalCase name) } with ⟨r1, cmid⟩
      simp only [hrc] at h
      rcases r1 with e | fm
      · simp at h
      · obtain ⟨hm, rfl⟩ := h
        simp [hpn]

/-- C8 witness: a successful struct-field visit from a context with
`isOptionField = true` hands back the saved `parentName`, `inlineStruct`
and `nestedStruct`, with `isOptionField` consumed to `false`. -/
theorem C8_success_paths_restore_context_witness :
    (⟨some "Point", true, true, none, false⟩ : Ctx).parentName
        = (⟨some "Point", true, true, none, true⟩ : Ctx).parentName
    ∧ (⟨some "Point", true, true, none, false⟩ : Ctx).inlineStruct
        = (⟨some "Point", true, true, none, true⟩ : Ctx).inlineStruct
    ∧ (⟨some "Point", true, true, none, false⟩ : Ctx).nestedStruct
        = (⟨some "Point", true, true, none, true⟩ : Ctx).nestedStruct
    ∧ (⟨some "Point", true, true, none, false⟩ : Ctx).isOptionField = false :=
  (C8_success_paths_restore_context "y" (.numberType "u8" "le") []
      ⟨some "Point", true, true, none, true⟩).1
    ⟨ImportMap.empty, [], "\tY uint8 `bin:\"optional\"`"⟩
    ⟨some "Point", true, true, none, false⟩
    (by simp [visitNode, numberFormatMap, strStartsWith, List.lookup, ImportMap.empty]
        all_goals decide)

/-- C2 counterexample: for the data enum `feedback` with payload variant
`good`, the emitted payload aggregate is the embedded field `Good …`
(the variant's own PascalCase name), not `FeedbackGood`, and the value
renderer's variant-literal prefix is `Feedback_Good` (with underscore),
which matches neither `FeedbackGood` nor the aggregate field name — so
the claimed name agreement fails at this input. -/
theorem C2_counterexample :
    (visitNode feedbackEnumNode (initCtx)).1 = .ok
      ⟨ImportMap.empty.addOne "github.com/gagliardetto/binary", [],
       "type Feedback struct \x7b\n\tEnum ag_binary.BorshEnum `borsh_enum:\"true\"`\n\tGood struct \x7b\n\tX uint8\n\x7d\n\tBad\n\x7d"⟩
    ∧ (renderValue (.enumValue "feedback" "good"
        (some (.structValue [.structFieldValue "x" (.numberValue 7)])))).render
        = "Feedback_Good \x7bX: 7\x7d"
    ∧ ¬ (variantAggregateNames feedbackVariants = [pascalCase "feedback" ++ pascalCase "good"]
         ∧ strStartsWith "Feedback_Good \x7bX: 7\x7d" (pascalCase "feedback" ++ pascalCase "good")
             = true) := by
  refine ⟨?_, ?_, ?_⟩
  · simp [visitNode, visitList, feedbackEnumNode, feedbackVariants, initCtx, mergeManifests,
      ImportMap.empty, ImportMap.mergeWithMany, ImportMap.mergeWith, ImportMap.add,
      ImportMap.addOne, numberFormatMap, strStartsWith, List.lookup, isScalarVariants,
      scalarConstLines, scalarConstLinesAux]
    all_goals decide
  · simp [renderValue, renderList, ImportMap.empty, ImportMap.mergeWithMany, ImportMap.mergeWith,
      ImportMap.add, ImportMap.addOne, String.intercalate]
    all_goals decide
  · decide

/-- C2 (amended): payload variants of a data enum are emitted as
aggregates named by the variant's own PascalCase name, with
`EnumName+VariantName` installed only as the naming context for the
descent into the payload; the value renderer's variant-literal prefix is
`EnumName_VariantName` (underscore-joined), for payload-carrying and
empty variants alike. -/
theorem C2_data_enum_naming (enumName variantName : String) (payload : TypeNode) (c : Ctx)
    (pn : String) (v : ValueNode) :
    (∀ m c', c.parentName = some pn →
        visitNode payload { c with inlineStruct := true, parentName := some (pascalCase pn ++ pascalCase variantName) } = (.ok m, c') →
        visitNode (.enumStructVariantType variantName payload) c
          = (.ok { m with typeStr := pascalCase variantName ++ " " ++ m.typeStr },
             { c' with inlineStruct := false, parentName := some pn }))
    ∧ (∀ m c', c.parentName = some pn →
        visitNode payload { c with parentName := some (pascalCase pn ++ pascalCase variantName) } = (.ok m, c') →
        visitNode (.enumTupleVariantType variantName payload) c
          = (.ok { m with typeStr := pascalCase variantName ++ " " ++ m.typeStr },
             { c' with parentName := some pn }))
    ∧ variantAggregateName (.enumStructVariantType variantName payload)
        = some (pascalCase variantName)
    ∧ variantAggregateName (.enumTupleVariantType variantName payload)
        = some (pascalCase variantName)
    ∧ (renderValue (.enumValue enumName variantName (some v))).render
        = pascalCase enumName ++ "_" ++ pascalCase variantName ++ " " ++ (renderValue v).render
    ∧ (renderValue (.enumValue enumName variantName none)).render
        = pascalCase enumName ++ "_" ++ pascalCase variantName := by
  refine ⟨?_, ?_, ?_, ?_, ?_, ?_⟩
  · intro m c' hpn h
    simp [visitNode, hpn, h]
  · intro m c' hpn h
    simp [visitNode, hpn, h]
  · rfl
  · rfl
  · simp [renderValue]
  · simp [renderValue]

/-- C2 witness: instantiating the struct-variant clause at the concrete
`feedback`/`good` enum renders the aggregate under the name `Good`. -/
theorem C2_data_enum_naming_witness :
    visitNode (.enumStructVariantType "good"
        (.structType [.structFieldType "x" (.numberType "u8" "le") []]))
        (⟨some "feedback", false, false, none, false⟩ : Ctx)
      = (.ok ⟨ImportMap.empty, [], "Good struct \x7b\n\tX uint8\n\x7d"⟩,
         ⟨some "feedback", false, false, none, false⟩) := by
  have h := (C2_data_enum_naming "feedback" "good"
      (.structType [.structFieldType "x" (.numberType "u8" "le") []])
      ⟨some "feedback", false, false, none, false⟩ "feedback" (.numberValue 0)).1
    ⟨ImportMap.empty, [], "struct \x7b\n\tX uint8\n\x7d"⟩
    ⟨some "FeedbackGood", false, true, none, false⟩
    rfl
    (by simp [visitNode, visitList, mergeManifests, ImportMap.empty, ImportMap.mergeWithMany,
          ImportMap.mergeWith, ImportMap.add, ImportMap.addOne, numberFormatMap, strStartsWith,
          List.lookup]
        all_goals decide)
  refine h.trans ?_
  have heq : pascalCase "good" ++ " " ++ "struct \x7b\n\tX uint8\n\x7d"
      = "Good struct \x7b\n\tX uint8\n\x7d" := by decide
  simp [heq]

/-- Visiting the empty variants of a scalar enum returns one manifest per
variant, holding the variant's PascalCase name, without touching the
context. -/
theorem visitList_empty_variants (ns : List String) (c : Ctx) :
    visitList (ns.map TypeNode.enumEmptyVariantType) c
      = (.ok (ns.map fun n => (⟨ImportMap.empty, [], pascalCase n⟩ : TypeManifest)), c) := by
  induction ns with
  | nil => simp [visitList]
  | cons n ns ih => simp [visitList, visitNode, ih]

/-- Merging a list of empty dependency sets yields the empty set. -/
theorem mergeWithMany_const_empty (l : List ImportMap) (h : ∀ x ∈ l, x = ImportMap.empty) :
    ImportMap.empty.mergeWithMany l = ImportMap.empty := by
  induction l with
  | nil => rfl
  | cons x xs ih =>
    have hx : x = ImportMap.empty := h x (List.mem_cons_self x xs)
    subst hx
    have hstep : ImportMap.empty.mergeWith ImportMap.empty = ImportMap.empty := rfl
    have ih2 := ih (fun y hy => h y (List.mem_cons_of_mem _ hy))
    simp only [ImportMap.mergeWithMany, List.foldl_cons, hstep] at ih2 ⊢
    exact ih2

/-- Merging the manifests of empty enum variants yields no imports and no
nested structs. -/
theorem mergeManifests_empties (ns : List String) :
    mergeManifests (ns.map fun n => (⟨ImportMap.empty, [], pascalCase n⟩ : TypeManifest))
      = (ImportMap.empty, []) := by
  unfold mergeManifests
  refine Prod.ext ?_ ?_
  · show ImportMap.empty.mergeWithMany _ = ImportMap.empty
    apply mergeWithMany_const_empty
    intro x hx
    rw [List.map_map] at hx
    rcases List.mem_map.mp hx with ⟨n, hn, hxe⟩
    exact hxe.symm
  · show List.flatMap _ _ = []
    induction ns with
    | nil => rfl
    | cons n ns _ => simp

/-- The scalar-enum const block has one line per variant. -/
theorem scalarConstLinesAux_length (T : String) (l : List String) (k : Nat) :
    (scalarConstLinesAux T k l).length = l.length := by
  induction l generalizing k with
  | nil => rfl
  | cons t ts ih => simp [scalarConstLinesAux, ih]

/-- Shape of the i-th scalar-enum const line: the declared name is
`T_variant`, with the `iota` initializer exactly on absolute index 0. -/
theorem scalarConstLinesAux_get (T : String) (l : List String) (k i : Nat) :
    (scalarConstLinesAux T k l)[i]? = (l[i]?).map (fun t =>
      if k + i = 0 then "\t" ++ T ++ "_" ++ t ++ " " ++ T ++ " = iota"
      else "\t" ++ T ++ "_" ++ t) := by
  induction l generalizing k i with
  | nil => simp [scalarConstLinesAux]
  | cons t ts ih =>
    cases i with
    | zero => simp [scalarConstLinesAux]
    | succ j =>
      have harith : k + 1 + j = k + (j + 1) := by omega
      have h2 := ih (k + 1) j
      rw [harith] at h2
      simp [scalarConstLinesAux, h2]

/-- A variant list made only of empty variants is detected as a scalar
enum. -/
theorem isScalar_of_all_empty (ns : List String) :
    isScalarVariants (ns.map .enumEmptyVariantType) = true := by
  induction ns with
  | nil => rfl
  | cons n ns _ => simp [isScalarVariants]

/-- C4: for every scalar enum the engine emits a `uint8` type plus a
const block with exactly one line per declared variant, in declaration
order, whose line `i` declares `TypeName_VariantName`; only line 0
carries the `= iota` initializer, so under Go const-block semantics the
ordinal sequence is contiguous, starts at the first declared variant, and
assigns ordinal `i` to variant `i`. -/
theorem C4_scalar_enum_ordinals (p : String) (ns : List String) (c : Ctx)
    (hpn : c.parentName = some p) :
    visitNode (.enumType (ns.map .enumEmptyVariantType)) c
      = (.ok ⟨ImportMap.empty, [],
          "type " ++ pascalCase p ++ " uint8" ++ "\n\n" ++ "const (\n"
            ++ String.intercalate "\n" (scalarConstLines (pascalCase p) (ns.map pascalCase))
            ++ "\n)"⟩, c)
    ∧ (scalarConstLines (pascalCase p) (ns.map pascalCase)).length = ns.length
    ∧ (∀ i, (scalarConstLines (pascalCase p) (ns.map pascalCase))[i]?
          = (ns[i]?).map (fun nm =>
              if i = 0 then
                "\t" ++ pascalCase p ++ "_" ++ pascalCase nm ++ " " ++ pascalCase p ++ " = iota"
              else "\t" ++ pascalCase p ++ "_" ++ pascalCase nm))
    ∧ constBlockOrdinals (scalarConstLines (pascalCase p) (ns.map pascalCase))
        = List.range ns.length := by
  refine ⟨?_, ?_, ?_, ?_⟩
  · simp only [visitNode, hpn]
    simp [isScalar_of_all_empty, visitList_empty_variants, mergeManifests_empties,
      scalarConstLines, List.map_map, Function.comp_def]
  · simp [scalarConstLines, scalarConstLinesAux_length]
  · intro i
    simp [scalarConstLines, scalarConstLinesAux_get, List.map_map, Function.comp_def]
  · simp [constBlockOrdinals, scalarConstLines, scalarConstLinesAux_length]

/-- C4 witness: the scalar enum `color { red, green, blue }` yields the
iota const block with ordinals 0, 1, 2 in declaration order. -/
theorem C4_scalar_enum_ordinals_witness :
    visitNode (.enumType (["red", "green", "blue"].map TypeNode.enumEmptyVariantType))
        (⟨some "color", false, false, none, false⟩ : Ctx)
      = (.ok ⟨ImportMap.empty, [],
          "type Color uint8\n\nconst (\n\tColor_Red Color = iota\n\tColor_Green\n\tColor_Blue\n)"⟩,
         ⟨some "color", false, false, none, false⟩) := by
  have h := (C4_scalar_enum_ordinals "color" ["red", "green", "blue"]
      ⟨some "color", false, false, none, false⟩ rfl).1
  refine h.trans ?_
  have heq : "type " ++ pascalCase "color" ++ " uint8" ++ "\n\n" ++ "const (\n"
        ++ String.intercalate "\n"
            (scalarConstLines (pascalCase "color") (["red", "green", "blue"].map pascalCase))
        ++ "\n)"
      = "type Color uint8\n\nconst (\n\tColor_Red Color = iota\n\tColor_Green\n\tColor_Blue\n)" := by
    decide
  rw [heq]

set_option maxRecDepth 8192

/-- Membership in the JavaScript duplicate filter: an element survives
`filter((e, i, a) => a.indexOf(e) !== i)` over `pre ++ t` (scanning `t`
from absolute position `pre.length`) iff it occurs in `t` and either
already occurred in `pre` or occurs at least twice in `t`. -/
theorem mem_dupFilterAux (x : String) :
    ∀ (t pre : List String),
      x ∈ dupFilterAux (pre ++ t) pre.length t
        ↔ x ∈ t ∧ (x ∈ pre ∨ 2 ≤ t.count x) := by
  intro t
  induction t with
  | nil => intro pre; simp [dupFilterAux]
  | cons e rest ih =>
    intro pre
    have hstep : dupFilterAux (pre ++ e :: rest) (pre.length + 1) rest
        = dupFilterAux ((pre ++ [e]) ++ rest) (pre ++ [e]).length rest := by
      simp
    by_cases hmem : e ∈ pre
    · have hidx : (pre ++ e :: rest).indexOf e ≠ pre.length := by
        have h1 : (pre ++ e :: rest).indexOf e = pre.indexOf e :=
          List.indexOf_append_of_mem hmem
        have h2 : pre.indexOf e < pre.length := List.indexOf_lt_length.2 hmem
        omega
      have hunf : dupFilterAux (pre ++ e :: rest) pre.length (e :: rest)
          = e :: dupFilterAux (pre ++ e :: rest) (pre.length + 1) rest := by
        simp only [dupFilterAux]
        rw [if_pos hidx]
      rw [hunf, List.mem_cons, hstep, ih (pre ++ [e])]
      by_cases hxe : x = e
      · subst hxe
        simp [hmem]
      · simp [hxe, List.count_cons_of_ne hxe]
    · have hidx : (pre ++ e :: rest).indexOf e = pre.length := by
        have h1 : (pre ++ e :: rest).indexOf e = pre.length + (e :: rest).indexOf e :=
          List.indexOf_append_of_not_mem hmem
        simp [List.indexOf_cons_self] at h1
        exact h1
      have hunf : dupFilterAux (pre ++ e :: rest) pre.length (e :: rest)
          = dupFilterAux (pre ++ e :: rest) (pre.length + 1) rest := by
        simp only [dupFilterAux]
        rw [if_neg (by simp [hidx])]
      rw [hunf, hstep, ih (pre ++ [e])]
      by_cases hxe : x = e
      · subst hxe
        constructor
        · rintro ⟨hin, -⟩
          refine ⟨List.mem_cons_of_mem _ hin, Or.inr ?_⟩
          have := List.count_pos_iff.2 hin
          simp only [List.count_cons_self]
          omega
        · rintro ⟨-, h | hc⟩
          · exact absurd h hmem
          · simp only [List.count_cons_self] at hc
            have hin : x ∈ rest := List.count_pos_iff.1 (by omega)
            exact ⟨hin, by simp⟩
      · simp [hxe, List.count_cons_of_ne hxe]

/-- A name is in the JavaScript duplicates list iff it occurs at least
twice. -/
theorem mem_jsDuplicates (x : String) (l : List String) :
    x ∈ jsDuplicates l ↔ 2 ≤ l.count x := by
  have h := mem_dupFilterAux x l []
  simp only [List.nil_append, List.length_nil] at h
  rw [jsDuplicates, h]
  constructor
  · rintro ⟨-, hmm | hc⟩
    · exact absurd hmm (by simp)
    · exact hc
  · intro hc
    exact ⟨List.count_pos_iff.1 (by omega), Or.inr hc⟩

/-- `[...new Set(l)]` preserves membership. -/
theorem mem_jsSetDedup (x : String) (l : List String) : x ∈ jsSetDedup l ↔ x ∈ l := by
  have key : ∀ (t acc : List String),
      x ∈ t.foldl (fun acc e => if e ∈ acc then acc else acc ++ [e]) acc
        ↔ x ∈ acc ∨ x ∈ t := by
    intro t
    induction t with
    | nil => intro acc; simp
    | cons e rest ih =>
      intro acc
      by_cases hmem : e ∈ acc
      · simp only [List.foldl_cons, if_pos hmem, ih acc, List.mem_cons]
        constructor
        · rintro (h | h)
          · exact Or.inl h
          · exact Or.inr (Or.inr h)
        · rintro (h | h | h)
          · exact Or.inl h
          · exact Or.inl (h ▸ hmem)
          · exact Or.inr h
      · simp only [List.foldl_cons, if_neg hmem, ih (acc ++ [e]), List.mem_append,
          List.mem_singleton, List.mem_cons]
        tauto
  have h := key l []
  simp only [List.not_mem_nil, false_or] at h
  exact h

/-- C5 counterexample: the collision report is NOT "exactly the names in
both lists" — an instruction with the duplicated account name
`authority` and no arguments still reports `authority` as a conflict,
because the code collects duplicates of the concatenated list. -/
theorem C5_counterexample :
    ¬ ("authority" ∈ getConflictsForInstructionAccountsAndArgs
          ⟨"ix", ["authority", "authority"], []⟩
        ↔ "authority" ∈ (["authority", "authority"] : List String)
          ∧ "authority" ∈ ([] : List String)) := by
  decide

/-- C5 (amended): a name is reported as a collision exactly when it
occurs at least twice in the concatenation of the account list and the
argument list; when each list is duplicate-free this coincides with
appearing in both lists; a non-fatal warning is emitted exactly when the
collision list is nonempty; and the accounts `["Authority"]` /
arguments `["Authority"]` example warns and renders the argument as
`AuthorityArg`. -/
theorem C5_collisions_and_suffixing (ins : InstructionNode) (x : String) :
    (x ∈ getConflictsForInstructionAccountsAndArgs ins
        ↔ 2 ≤ (ins.accounts ++ ins.args).count x)
    ∧ (ins.accounts.Nodup → ins.args.Nodup →
        (x ∈ getConflictsForInstructionAccountsAndArgs ins
          ↔ x ∈ ins.accounts ∧ x ∈ ins.args))
    ∧ (instructionWarnings ins ≠ [] ↔ getConflictsForInstructionAccountsAndArgs ins ≠ [])
    ∧ instructionArgRenderedNames ⟨"transferSol", ["Authority"], ["Authority"]⟩
        = ["AuthorityArg"]
    ∧ instructionWarnings ⟨"transferSol", ["Authority"], ["Authority"]⟩
        = ["[Go] Accounts and args of instruction [transferSol] have the following conflicting attributes [Authority]. Thus, the conflicting arguments will be suffixed with \"Arg\". You may want to rename the conflicting attributes."] := by
  refine ⟨?_, ?_, ?_, ?_, ?_⟩
  · rw [getConflictsForInstructionAccountsAndArgs, mem_jsSetDedup, mem_jsDuplicates]
  · intro hacc harg
    rw [getConflictsForInstructionAccountsAndArgs, mem_jsSetDedup, mem_jsDuplicates]
    have hca : (ins.accounts).count x ≤ 1 := List.nodup_iff_count_le_one.1 hacc x
    have hcb : (ins.args).count x ≤ 1 := List.nodup_iff_count_le_one.1 harg x
    rw [List.count_append]
    constructor
    · intro h2
      exact ⟨List.count_pos_iff.1 (by omega), List.count_pos_iff.1 (by omega)⟩
    · rintro ⟨ha, hb⟩
      have := List.count_pos_iff.2 ha
      have := List.count_pos_iff.2 hb
      omega
  · rw [instructionWarnings]
    rcases h : getConflictsForInstructionAccountsAndArgs ins with _ | ⟨c0, cs⟩
    · simp
    · simp
  · decide
  · decide

/-- C5 witness: for the `Authority` example (duplicate-free lists) the
collision report is exactly "appears in both lists". -/
theorem C5_collisions_and_suffixing_witness :
    "Authority" ∈ getConflictsForInstructionAccountsAndArgs
        ⟨"transferSol", ["Authority"], ["Authority"]⟩
      ↔ "Authority" ∈ (["Authority"] : List String)
        ∧ "Authority" ∈ (["Authority"] : List String) :=
  (C5_collisions_and_suffixing ⟨"transferSol", ["Authority"], ["Authority"]⟩ "Authority").2.1
    (by decide) (by decide)

/-- Setting a key always makes lookup return the new value. -/
theorem lookup_assocSet_self (l : List (String × String)) (k v : String) :
    (assocSet l k v).lookup k = some v := by
  induction l with
  | nil => simp [assocSet, List.lookup]
  | cons p rest ih =>
    rcases p with ⟨k', v'⟩
    by_cases hk : k' = k
    · simp [assocSet, hk, List.lookup]
    · have hb : (k == k') = false := beq_eq_false_iff_ne.mpr (fun he => hk he.symm)
      simp [assocSet, hk, List.lookup, ih, hb]

/-- Setting a different key leaves a lookup unchanged. -/
theorem lookup_assocSet_of_ne (l : List (String × String)) (x k v : String) (h : k ≠ x) :
    (assocSet l k v).lookup x = l.lookup x := by
  have hbx : (x == k) = false := beq_eq_false_iff_ne.mpr (fun he => h he.symm)
  induction l with
  | nil => simp [assocSet, List.lookup, hbx]
  | cons p rest ih =>
    rcases p with ⟨k', v'⟩
    by_cases hk : k' = k
    · subst hk
      simp [assocSet, List.lookup, hbx]
    · simp [assocSet, hk, List.lookup, ih]

/-- Replaying pairs none of which carries key `x` leaves the lookup of
`x` unchanged. -/
theorem lookup_foldl_assocSet_of_not_mem (pairs : List (String × String)) :
    ∀ (l : List (String × String)) (x : String), x ∉ pairs.map Prod.fst →
      (pairs.foldl (fun acc p => assocSet acc p.1 p.2) l).lookup x = l.lookup x := by
  induction pairs with
  | nil => intro l x _; rfl
  | cons p rest ih =>
    intro l x hx
    rcases p with ⟨k, v⟩
    simp only [List.map_cons, List.mem_cons] at hx
    push_neg at hx
    simp only [List.foldl_cons]
    rw [ih (assocSet l k v) x hx.2, lookup_assocSet_of_ne _ _ _ _ (fun he => hx.1 he.symm)]

/-- Replaying a duplicate-free alias list through `set` ends with each of
its keys mapped to its own value, whatever the target map held before. -/
theorem lookup_foldl_assocSet_of_some (pairs : List (String × String)) :
    ∀ (l : List (String × String)) (x y : String),
      (pairs.map Prod.fst).Nodup → pairs.lookup x = some y →
      (pairs.foldl (fun acc p => assocSet acc p.1 p.2) l).lookup x = some y := by
  induction pairs with
  | nil => intro l x y _ hx; simp [List.lookup] at hx
  | cons p rest ih =>
    intro l x y hnd hx
    rcases p with ⟨k, v⟩
    simp only [List.map_cons, List.nodup_cons] at hnd
    by_cases hxk : x = k
    · subst hxk
      simp [List.lookup] at hx
      subst hx
      simp only [List.foldl_cons]
      rw [lookup_foldl_assocSet_of_not_mem rest (assocSet l x v) x hnd.1]
      exact lookup_assocSet_self l x v
    · have hbx : (x == k) = false := beq_eq_false_iff_ne.mpr hxk
      simp [List.lookup, hbx] at hx
      simp only [List.foldl_cons]
      exact ih (assocSet l k v) x y hnd.2 hx

/-- The alias component of an `addAlias` fold is the `assocSet` fold of
the alias lists. -/
theorem aliases_foldl_addAlias (pairs : List (String × String)) :
    ∀ m : ImportMap, (pairs.foldl (fun acc p => acc.addAlias p.1 p.2) m).aliases
      = pairs.foldl (fun acc p => assocSet acc p.1 p.2) m.aliases := by
  induction pairs with
  | nil => intro m; rfl
  | cons p rest ih =>
    intro m
    simp only [List.foldl_cons]
    rw [ih]
    rfl

/-- Adding an identifier never touches the alias map. -/
theorem aliases_addOne (m : ImportMap) (i : String) : (m.addOne i).aliases = m.aliases := by
  unfold ImportMap.addOne
  split <;> rfl

/-- Adding identifiers never touches the alias map. -/
theorem aliases_add (m : ImportMap) (is : List String) : (m.add is).aliases = m.aliases := by
  unfold ImportMap.add
  induction is generalizing m with
  | nil => rfl
  | cons i rest ih =>
    simp only [List.foldl_cons]
    rw [ih, aliases_addOne]

/-- C10: when two maps alias the same import identifier differently,
`mergeWith` unconditionally overwrites the receiver's alias with the
argument's, and re-adding the identifier afterwards does not bring the
old alias back — the last-merged alias wins. -/
theorem C10_merge_alias_overwrites (a b : ImportMap) (id x y : String)
    (_ha : a.aliases.lookup id = some x) (_hxy : x ≠ y)
    (hb : b.aliases.lookup id = some y)
    (hnd : (b.aliases.map Prod.fst).Nodup) :
    (a.mergeWith b).aliases.lookup id = some y
    ∧ ((a.mergeWith b).add [id]).aliases.lookup id = some y := by
  have hal : (a.mergeWith b).aliases
      = b.aliases.foldl (fun acc p => assocSet acc p.1 p.2) a.aliases := by
    unfold ImportMap.mergeWith
    rw [aliases_foldl_addAlias, aliases_add]
  have hmain : (a.mergeWith b).aliases.lookup id = some y := by
    rw [hal]
    exact lookup_foldl_assocSet_of_some b.aliases a.aliases id y hnd hb
  exact ⟨hmain, by rw [aliases_add]; exact hmain⟩

/-- C10 witness: merging alias `f1` with alias `f2` for the same import
leaves `f2`, also after re-adding the identifier. -/
theorem C10_merge_alias_overwrites_witness :
    ((ImportMap.empty.addAlias "github.com/foo" "f1").mergeWith
        (ImportMap.empty.addAlias "github.com/foo" "f2")).aliases.lookup "github.com/foo"
      = some "f2"
    ∧ (((ImportMap.empty.addAlias "github.com/foo" "f1").mergeWith
        (ImportMap.empty.addAlias "github.com/foo" "f2")).add
          ["github.com/foo"]).aliases.lookup "github.com/foo" = some "f2" :=
  C10_merge_alias_overwrites _ _ "github.com/foo" "f1" "f2"
    (by decide) (by decide) (by decide) (by decide)

/-- An identifier matching no key of the dependency map resolves to
itself. -/
theorem resolveDependency_of_find_none (dm : List (String × String)) (s : String)
    (h : dm.find? (fun kv => strStartsWith s (kv.1 ++ "::")) = none) :
    resolveDependency dm s = s := by
  simp only [resolveDependency, h]

/-- Under `goodDepMap`, every non-empty output of `resolveDependency` is
a fixed point: a rewritten identifier `value ++ "::" ++ rest` can match
no key again, and an unmatched identifier stays unmatched. -/
theorem resolveDependency_fixed (dm : List (String × String)) (hg : goodDepMap dm)
    (i : String) (hne : resolveDependency dm i ≠ "") :
    resolveDependency dm (resolveDependency dm i) = resolveDependency dm i := by
  rcases hfind : dm.find? (fun kv => strStartsWith i (kv.1 ++ "::")) with _ | kv
  · have hid : resolveDependency dm i = i := resolveDependency_of_find_none dm i hfind
    rw [hid]
    exact hid
  · have hkvmem : kv ∈ dm := List.mem_of_find?_eq_some hfind
    have hkvpred : strStartsWith i (kv.1 ++ "::") = true := by
      simpa using List.find?_some hfind
    by_cases hv : kv.2 = ""
    · have hzero : resolveDependency dm i = "" := by
        simp [resolveDependency, hfind, hv]
      exact absurd hzero hne
    · have hres : resolveDependency dm i = kv.2 ++ strDrop i kv.1.data.length := by
        simp only [resolveDependency, hfind]
        rw [if_neg hv]
      have hpre : (kv.1 ++ "::").data <+: i.data := by
        simpa [strStartsWith] using hkvpred
      rcases hpre with ⟨t, ht⟩
      have hrdata : (resolveDependency dm i).data = (kv.2 ++ "::").data ++ t := by
        rw [hres]
        simp only [String.data_append, strDrop]
        have hi : i.data = kv.1.data ++ ([':', ':'] ++ t) := by
          rw [← ht]
          simp [String.data_append]
        rw [hi, List.drop_left]
        simp
      have hnone : dm.find?
          (fun kv' => strStartsWith (resolveDependency dm i) (kv'.1 ++ "::")) = none := by
        rw [List.find?_eq_none]
        intro kv' hkv' hcontra
        have hp1 : (kv'.1 ++ "::").data <+: (resolveDependency dm i).data := by
          simpa [strStartsWith] using hcontra
        have hp2 : (kv.2 ++ "::").data <+: (resolveDependency dm i).data := by
          rw [hrdata]
          exact ⟨t, rfl⟩
        rcases Nat.le_total (kv'.1 ++ "::").data.length (kv.2 ++ "::").data.length with hle | hle
        · have hpp := List.prefix_of_prefix_length_le hp1 hp2 hle
          have hbad := (hg kv hkvmem hv kv' hkv').1
          have hgood : strStartsWith (kv.2 ++ "::") (kv'.1 ++ "::") = true := by
            simpa [strStartsWith] using hpp
          rw [hbad] at hgood
          exact Bool.noConfusion hgood
        · have hpp := List.prefix_of_prefix_length_le hp2 hp1 hle
          have hbad := (hg kv hkvmem hv kv' hkv').2
          have hgood : strStartsWith (kv'.1 ++ "::") (kv.2 ++ "::") = true := by
            simpa [strStartsWith] using hpp
          rw [hbad] at hgood
          exact Bool.noConfusion hgood
      exact resolveDependency_of_find_none dm _ hnone



/-- Unfolding of `resolveDependencyMap` into its two folds. -/
theorem resolveDependencyMap_eq (m : ImportMap) (deps : List (String × String)) :
    m.resolveDependencyMap deps
      = m.aliases.foldl (resolveAliasesStep (spreadRecords DEFAULT_MODULE_MAP deps))
          (m.imports.foldl (resolveImportsStep (spreadRecords DEFAULT_MODULE_MAP deps))
            ImportMap.empty) := rfl

/-- Members of an `addOne` result are old members or the new element. -/
theorem imports_addOne_mem (m : ImportMap) (i x : String)
    (h : x ∈ (m.addOne i).imports) : x ∈ m.imports ∨ x = i := by
  unfold ImportMap.addOne at h
  split at h
  · exact Or.inl h
  · rcases List.mem_append.mp h with h1 | h1
    · exact Or.inl h1
    · exact Or.inr (by simpa using h1)

/-- `addOne` preserves duplicate-freeness of the identifier set. -/
theorem imports_addOne_nodup (m : ImportMap) (i : String)
    (h : m.imports.Nodup) : (m.addOne i).imports.Nodup := by
  by_cases hmem : i ∈ m.imports
  · simp [ImportMap.addOne, hmem, h]
  · simp only [ImportMap.addOne, hmem, if_neg]
    refine List.Nodup.append h (List.nodup_singleton i) ?_
    intro a ha hai
    rw [List.mem_singleton] at hai
    subst hai
    exact hmem ha

/-- The import-resolution fold never touches aliases. -/
theorem fold_resolveImportsStep_aliases (dm : List (String × String)) (l : List String) :
    ∀ acc : ImportMap, (l.foldl (resolveImportsStep dm) acc).aliases = acc.aliases := by
  induction l with
  | nil => intro acc; rfl
  | cons i rest ih =>
    intro acc
    simp only [List.foldl_cons]
    rw [ih]
    simp only [resolveImportsStep]
    split
    · exact aliases_addOne _ _
    · rfl

/-- Every member of an import-resolution fold is an old member or a
non-empty `resolveDependency` output. -/
theorem fold_resolveImportsStep_mem (dm : List (String × String)) (l : List String) :
    ∀ (acc : ImportMap) (x : String), x ∈ (l.foldl (resolveImportsStep dm) acc).imports →
      x ∈ acc.imports ∨ (∃ i, resolveDependency dm i = x ∧ x ≠ "") := by
  induction l with
  | nil => intro acc x h; exact Or.inl h
  | cons i rest ih =>
    intro acc x h
    simp only [List.foldl_cons] at h
    rcases ih _ x h with h1 | h1
    · by_cases hr : resolveDependency dm i = ""
      · have hstep : resolveImportsStep dm acc i = acc := by
          simp [resolveImportsStep, hr]
        rw [hstep] at h1
        exact Or.inl h1
      · have hstep : resolveImportsStep dm acc i = acc.addOne (resolveDependency dm i) := by
          simp [resolveImportsStep, hr]
        rw [hstep] at h1
        rcases imports_addOne_mem _ _ _ h1 with h2 | h2
        · exact Or.inl h2
        · exact Or.inr ⟨i, h2.symm, by rw [h2]; exact hr⟩
    · exact Or.inr h1

/-- The import-resolution fold preserves duplicate-freeness. -/
theorem fold_resolveImportsStep_nodup (dm : List (String × String)) (l : List String) :
    ∀ acc : ImportMap, acc.imports.Nodup →
      ((l.foldl (resolveImportsStep dm) acc).imports).Nodup := by
  induction l with
  | nil => intro acc h; exact h
  | cons i rest ih =>
    intro acc h
    simp only [List.foldl_cons]
    refine ih _ ?_
    simp only [resolveImportsStep]
    split
    · exact imports_addOne_nodup _ _ h
    · exact h

/-- Over identifiers that are non-empty fixed points, the
import-resolution fold degenerates to plain set insertion. -/
theorem fold_resolveImportsStep_fixed (dm : List (String × String)) (l : List String)
    (hfix : ∀ i ∈ l, resolveDependency dm i = i ∧ i ≠ "") :
    ∀ acc : ImportMap, l.foldl (resolveImportsStep dm) acc = l.foldl ImportMap.addOne acc := by
  induction l with
  | nil => intro acc; rfl
  | cons i rest ih =>
    intro acc
    have hi := hfix i (List.mem_cons_self i rest)
    simp only [List.foldl_cons]
    have hstep : resolveImportsStep dm acc i = acc.addOne i := by
      simp [resolveImportsStep, hi.1, hi.2]
    rw [hstep]
    exact ih (fun j hj => hfix j (List.mem_cons_of_mem _ hj)) _

/-- Inserting a duplicate-free list of fresh identifiers appends it. -/
theorem foldl_addOne_imports (l : List String) :
    ∀ acc : ImportMap, l.Nodup → (∀ i ∈ l, i ∉ acc.imports) →
      (l.foldl ImportMap.addOne acc).imports = acc.imports ++ l := by
  induction l with
  | nil => intro acc _ _; simp
  | cons i rest ih =>
    intro acc hnd hfresh
    simp only [List.foldl_cons]
    have hmem : i ∉ acc.imports := hfresh i (List.mem_cons_self i rest)
    have haddone : (acc.addOne i).imports = acc.imports ++ [i] := by
      simp [ImportMap.addOne, hmem]
    have hfresh2 : ∀ j ∈ rest, j ∉ (acc.addOne i).imports := by
      intro j hj
      rw [haddone]
      simp only [List.mem_append, List.mem_singleton]
      push_neg
      exact ⟨hfresh j (List.mem_cons_of_mem _ hj),
        fun he => (List.nodup_cons.mp hnd).1 (he ▸ hj)⟩
    rw [ih (acc.addOne i) (List.nodup_cons.mp hnd).2 hfresh2, haddone]
    simp



/-- `addAlias` never touches the identifier set. -/
theorem imports_addAlias (m : ImportMap) (k v : String) :
    (m.addAlias k v).imports = m.imports := rfl

/-- The alias-resolution fold never touches the identifier set. -/
theorem fold_resolveAliasesStep_imports (dm : List (String × String))
    (pairs : List (String × String)) :
    ∀ acc : ImportMap, (pairs.foldl (resolveAliasesStep dm) acc).imports = acc.imports := by
  induction pairs with
  | nil => intro acc; rfl
  | cons p rest ih =>
    intro acc
    simp only [List.foldl_cons]
    rw [ih]
    simp only [resolveAliasesStep]
    split
    · rfl
    · rfl

/-- `set` keeps the key list, appending the key only when it is new. -/
theorem assocKeys_assocSet (l : List (String × String)) (k v : String) :
    assocKeys (assocSet l k v)
      = if k ∈ assocKeys l then assocKeys l else assocKeys l ++ [k] := by
  induction l with
  | nil => simp [assocSet, assocKeys]
  | cons p rest ih =>
    rcases p with ⟨k', v'⟩
    by_cases hk : k' = k
    · subst hk
      simp [assocSet, assocKeys]
    · simp only [assocSet, if_neg hk, assocKeys, List.map_cons]
      rw [show List.map Prod.fst (assocSet rest k v) = assocKeys (assocSet rest k v) from rfl,
        ih]
      have hkk : k ≠ k' := fun he => hk he.symm
      by_cases hmem : k ∈ List.map Prod.fst rest
      · simp [assocKeys, hmem, hkk]
      · simp [assocKeys, hmem, hkk]

/-- Keys after a `set` are old keys or the new key. -/
theorem assocKeys_assocSet_mem (l : List (String × String)) (k v x : String)
    (h : x ∈ assocKeys (assocSet l k v)) : x ∈ assocKeys l ∨ x = k := by
  rw [assocKeys_assocSet] at h
  split at h
  · exact Or.inl h
  · rcases List.mem_append.mp h with h1 | h1
    · exact Or.inl h1
    · exact Or.inr (by simpa using h1)

/-- `set` preserves duplicate-freeness of the key list. -/
theorem assocKeys_assocSet_nodup (l : List (String × String)) (k v : String)
    (h : (assocKeys l).Nodup) : (assocKeys (assocSet l k v)).Nodup := by
  rw [assocKeys_assocSet]
  split
  · exact h
  · next hmem =>
    refine List.Nodup.append h (List.nodup_singleton k) ?_
    intro a ha hak
    rw [List.mem_singleton] at hak
    subst hak
    exact hmem ha

/-- `addAlias` is `set` on the alias list. -/
theorem aliases_addAlias (m : ImportMap) (k v : String) :
    (m.addAlias k v).aliases = assocSet m.aliases k v := rfl

/-- Every alias key after the alias-resolution fold is an old key or a
non-empty `resolveDependency` output. -/
theorem fold_resolveAliasesStep_keys_mem (dm : List (String × String))
    (pairs : List (String × String)) :
    ∀ (acc : ImportMap) (x : String),
      x ∈ assocKeys (pairs.foldl (resolveAliasesStep dm) acc).aliases →
      x ∈ assocKeys acc.aliases ∨ (∃ i, resolveDependency dm i = x ∧ x ≠ "") := by
  induction pairs with
  | nil => intro acc x h; exact Or.inl h
  | cons p rest ih =>
    intro acc x h
    simp only [List.foldl_cons] at h
    rcases ih _ x h with h1 | h1
    · by_cases hr : resolveDependency dm p.1 = ""
      · have hstep : resolveAliasesStep dm acc p = acc := by
          simp [resolveAliasesStep, hr]
        rw [hstep] at h1
        exact Or.inl h1
      · have hstep : resolveAliasesStep dm acc p
            = acc.addAlias (resolveDependency dm p.1) p.2 := by
          simp [resolveAliasesStep, hr]
        rw [hstep, aliases_addAlias] at h1
        rcases assocKeys_assocSet_mem _ _ _ _ h1 with h2 | h2
        · exact Or.inl h2
        · exact Or.inr ⟨p.1, h2.symm, by rw [h2]; exact hr⟩
    · exact Or.inr h1

/-- The alias-resolution fold preserves key duplicate-freeness. -/
theorem fold_resolveAliasesStep_keys_nodup (dm : List (String × String))
    (pairs : List (String × String)) :
    ∀ acc : ImportMap, (assocKeys acc.aliases).Nodup →
      (assocKeys (pairs.foldl (resolveAliasesStep dm) acc).aliases).Nodup := by
  induction pairs with
  | nil => intro acc h; exact h
  | cons p rest ih =>
    intro acc h
    simp only [List.foldl_cons]
    refine ih _ ?_
    simp only [resolveAliasesStep]
    split
    · rw [aliases_addAlias]
      exact assocKeys_assocSet_nodup _ _ _ h
    · exact h

/-- Over alias pairs whose keys are non-empty fixed points, the
alias-resolution fold degenerates to plain alias registration. -/
theorem fold_resolveAliasesStep_fixed (dm : List (String × String))
    (pairs : List (String × String))
    (hfix : ∀ p ∈ pairs, resolveDependency dm p.1 = p.1 ∧ p.1 ≠ "") :
    ∀ acc : ImportMap, pairs.foldl (resolveAliasesStep dm) acc
      = pairs.foldl (fun acc p => acc.addAlias p.1 p.2) acc := by
  induction pairs with
  | nil => intro acc; rfl
  | cons p rest ih =>
    intro acc
    have hp := hfix p (List.mem_cons_self p rest)
    simp only [List.foldl_cons]
    have hstep : resolveAliasesStep dm acc p = acc.addAlias p.1 p.2 := by
      simp [resolveAliasesStep, hp.1, hp.2]
    rw [hstep]
    exact ih (fun q hq => hfix q (List.mem_cons_of_mem _ hq)) _

/-- Setting a fresh key appends the pair. -/
theorem assocSet_of_not_mem (l : List (String × String)) (k v : String)
    (h : k ∉ assocKeys l) : assocSet l k v = l ++ [(k, v)] := by
  induction l with
  | nil => rfl
  | cons p rest ih =>
    rcases p with ⟨k', v'⟩
    simp only [assocKeys, List.map_cons, List.mem_cons] at h
    push_neg at h
    have hk : ¬ k' = k := fun he => h.1 he.symm
    simp only [assocSet, if_neg hk]
    rw [ih h.2]
    simp



/-- Replaying a duplicate-free, fresh alias list appends it wholesale. -/
theorem foldl_assocSet_fresh (pairs : List (String × String)) :
    ∀ l : List (String × String), (pairs.map Prod.fst).Nodup →
      (∀ k ∈ pairs.map Prod.fst, k ∉ assocKeys l) →
      pairs.foldl (fun acc p => assocSet acc p.1 p.2) l = l ++ pairs := by
  induction pairs with
  | nil => intro l _ _; simp
  | cons p rest ih =>
    intro l hnd hfresh
    rcases p with ⟨k, v⟩
    simp only [List.map_cons, List.nodup_cons] at hnd
    have hk : k ∉ assocKeys l := hfresh k (by simp)
    simp only [List.foldl_cons]
    have hset : assocSet l k v = l ++ [(k, v)] := assocSet_of_not_mem l k v hk
    rw [hset]
    have hfresh2 : ∀ j ∈ rest.map Prod.fst, j ∉ assocKeys (l ++ [(k, v)]) := by
      intro j hj
      simp only [assocKeys, List.map_append, List.mem_append]
      push_neg
      refine ⟨hfresh j (by simp [hj]), ?_⟩
      simp only [List.map_cons, List.map_nil, List.mem_singleton]
      exact fun he => hnd.1 (he ▸ hj)
    rw [ih (l ++ [(k, v)]) hnd.2 hfresh2]
    simp

/-- C6 (amended): dependency resolution is idempotent whenever no
non-empty value of the extended dependency map shares a `::`-terminated
prefix with a key (`goodDepMap`) — then every identifier and alias key of
an already-resolved set is a fixed point, so a second resolution returns
the same identifier set and alias map. -/
theorem C6_resolution_idempotent (m : ImportMap) (deps : List (String × String))
    (hg : goodDepMap (spreadRecords DEFAULT_MODULE_MAP deps)) :
    ((m.resolveDependencyMap deps).resolveDependencyMap deps).imports
        = (m.resolveDependencyMap deps).imports
    ∧ ((m.resolveDependencyMap deps).resolveDependencyMap deps).aliases
        = (m.resolveDependencyMap deps).aliases := by
  have himp_char : ∀ x ∈ (m.resolveDependencyMap deps).imports,
      resolveDependency (spreadRecords DEFAULT_MODULE_MAP deps) x = x ∧ x ≠ "" := by
    intro x hx
    rw [resolveDependencyMap_eq, fold_resolveAliasesStep_imports] at hx
    rcases fold_resolveImportsStep_mem _ _ _ x hx with h0 | ⟨i, hres, hne⟩
    · simp [ImportMap.empty] at h0
    · refine ⟨?_, hne⟩
      rw [← hres]
      exact resolveDependency_fixed _ hg i (by rw [hres]; exact hne)
  have himp_nodup : (m.resolveDependencyMap deps).imports.Nodup := by
    rw [resolveDependencyMap_eq, fold_resolveAliasesStep_imports]
    exact fold_resolveImportsStep_nodup _ _ _ (by simp [ImportMap.empty])
  have hkeys_char : ∀ p ∈ (m.resolveDependencyMap deps).aliases,
      resolveDependency (spreadRecords DEFAULT_MODULE_MAP deps) p.1 = p.1 ∧ p.1 ≠ "" := by
    intro p hp
    have hk : p.1 ∈ assocKeys (m.resolveDependencyMap deps).aliases :=
      List.mem_map_of_mem _ hp
    rw [resolveDependencyMap_eq] at hk
    rcases fold_resolveAliasesStep_keys_mem _ _ _ _ hk with h0 | ⟨i, hres, hne⟩
    · rw [fold_resolveImportsStep_aliases] at h0
      simp [ImportMap.empty, assocKeys] at h0
    · refine ⟨?_, hne⟩
      rw [← hres]
      exact resolveDependency_fixed _ hg i (by rw [hres]; exact hne)
  have hkeys_nodup : ((m.resolveDependencyMap deps).aliases.map Prod.fst).Nodup := by
    have h := fold_resolveAliasesStep_keys_nodup (spreadRecords DEFAULT_MODULE_MAP deps)
      m.aliases (m.imports.foldl (resolveImportsStep (spreadRecords DEFAULT_MODULE_MAP deps))
        ImportMap.empty) ?_
    · rw [resolveDependencyMap_eq]
      exact h
    · rw [fold_resolveImportsStep_aliases]
      simp [ImportMap.empty, assocKeys]
  constructor
  · rw [resolveDependencyMap_eq (m.resolveDependencyMap deps) deps,
      fold_resolveAliasesStep_imports,
      fold_resolveImportsStep_fixed _ _ himp_char,
      foldl_addOne_imports _ _ himp_nodup (by intro i _; simp [ImportMap.empty])]
    simp [ImportMap.empty]
  · rw [resolveDependencyMap_eq (m.resolveDependencyMap deps) deps,
      fold_resolveAliasesStep_fixed _ _ hkeys_char,
      aliases_foldl_addAlias]
    rw [fold_resolveImportsStep_aliases]
    rw [show ImportMap.empty.aliases = ([] : List (String × String)) from rfl]
    rw [foldl_assocSet_fresh _ _ hkeys_nodup (by intro k _; simp [assocKeys])]
    simp

/-- C6 counterexample: resolution is NOT idempotent for every map.  With
the map `{foo ↦ generated}`, the identifier `foo::X` resolves to
`generated::X`, and a second resolution drops it entirely because
`generated` is a default same-package key mapped to the empty path. -/
theorem C6_counterexample :
    ¬ (((ImportMap.empty.addOne "foo::X").resolveDependencyMap
          [("foo", "generated")]).resolveDependencyMap [("foo", "generated")]
        = (ImportMap.empty.addOne "foo::X").resolveDependencyMap [("foo", "generated")]) := by
  decide

/-- C6 witness: resolving `generatedTypes::Foo` through an ordinary
external-path mapping twice equals resolving it once. -/
theorem C6_resolution_idempotent_witness :
    ((ImportMap.empty.addOne "generatedTypes::Foo").resolveDependencyMap
        [("generatedTypes", "github.com/acme/types")]).resolveDependencyMap
        [("generatedTypes", "github.com/acme/types")]
      = (ImportMap.empty.addOne "generatedTypes::Foo").resolveDependencyMap
          [("generatedTypes", "github.com/acme/types")] := by
  have h := C6_resolution_idempotent (ImportMap.empty.addOne "generatedTypes::Foo")
    [("generatedTypes", "github.com/acme/types")] (by unfold goodDepMap; decide)
  rcases hsplit :
      ((ImportMap.empty.addOne "generatedTypes::Foo").resolveDependencyMap
        [("generatedTypes", "github.com/acme/types")]).resolveDependencyMap
        [("generatedTypes", "github.com/acme/types")] with ⟨imp, al⟩
  rcases hsplit2 : (ImportMap.empty.addOne "generatedTypes::Foo").resolveDependencyMap
      [("generatedTypes", "github.com/acme/types")] with ⟨imp2, al2⟩
  rw [hsplit, hsplit2] at h
  simp only at h
  rw [h.1, h.2]

end RendererGo
